import Mathlib

/-!
# pz5-db: the task repository over a relational store

A shallow embedding of `repository.go` (`CreateTask`, `ListTasks`, `ListDone`,
`FindByID`, `CreateMany`).  The repository functions are translated statement by
statement; the database behind `*sql.DB` is an explicit state (`Store`) that is
passed through every call.

The store is the environment of the program.  Its model consists of
* the committed rows of the `tasks` table, in physical (heap) order;
* the `id` sequence of that table;
* a script of scheduled outcomes, one entry for each round-trip to the server
  (`none`: the round-trip works, `some m`: it fails with a driver error of text `m`;
  an exhausted script means that every further round-trip works), which stands for
  lost connections, cancelled contexts, elapsed deadlines and the like;
* a journal of the calls received, with their outcome.

Go `int` identifiers are unbounded integers here: the code does no arithmetic on them.
The deferred `rows.Close()` of the listing functions changes nothing of this state and is
left out.
-/

namespace Pz5

/-- Task is the model struct of `repository.go` (lines 11-16).  `CreatedAt` is a timestamp,
counted in ticks of the clock of the store. -/
structure Task where
  ID : Int
  Title : String
  Done : Bool
  CreatedAt : Nat
  deriving DecidableEq, Repr

/-- Modelled from the spec: the DDL of table `tasks` is not in the sources; section 6 gives
its columns as `id` (auto-assigned integer primary key), `title` (text, not null), `done`
(boolean, default false), `created_at` (timestamp, default current time at insertion).
The last two columns have a default but are not declared `not null`, so a row may hold
NULL (`none`) in them. -/
structure Row where
  id : Int
  title : String
  done : Option Bool
  created_at : Option Nat
  deriving DecidableEq, Repr

/-- Go error values.  The constructors record where a value was made: the sentinel
`sql.ErrNoRows` (which line 91 compares by identity), a value made by the driver or by
`database/sql`, and a value made by `fmt.Errorf` inside `repository.go`.  Apart from the
sentinel, what a caller can read off such a value is its `Error()` text. -/
inductive GoError where
  | errNoRows
  | driver (msg : String)
  | errorf (msg : String)
  deriving DecidableEq, Repr

/-- The `Error()` text of an error value, which is what the verb `%v` prints. -/
def GoError.Error : GoError → String
  | .errNoRows => "sql: no rows in result set"
  | .driver msg => msg
  | .errorf msg => msg

/-- The calls that `repository.go` makes on the database handle, a transaction, a prepared
statement or a result cursor. -/
inductive Call where
  | insertReturning (title : String)
  | selectAll
  | selectDone (done : Bool)
  | next
  | selectByID (id : Int)
  | beginTx
  | prepare
  | exec (title : String)
  | commit
  | rollback
  | stmtClose
  deriving DecidableEq, Repr

/-- One journal entry: a call and the error it returned (`none` for nil). -/
structure Event where
  call : Call
  err : Option GoError
  deriving DecidableEq, Repr

/-- The state of the database behind the handle. -/
structure Store where
  rows : List Row
  seq : Int
  now : Nat
  faults : List (Option String)
  log : List Event
  deriving DecidableEq, Repr

/-- The transaction handle `*sql.Tx`: the rows inserted in the transaction and not yet
committed. -/
structure Tx where
  pending : List Row
  deriving DecidableEq, Repr

/-- Takes the scheduled outcome of the next round-trip off the script. -/
def Store.pop (s : Store) : Option String × Store :=
  match s.faults with
  | [] => (none, s)
  | f :: fs => (f, { s with faults := fs })

/-- Appends a call and its outcome to the journal. -/
def Store.record (s : Store) (c : Call) (e : Option GoError) : Store :=
  { s with log := s.log ++ [⟨c, e⟩] }

/-- The journal entries written between two states of the store. -/
def Store.since (before after : Store) : List Event :=
  after.log.drop before.log.length

/-- The error of the server for a second row with an identifier already in use. -/
def pkViolation : GoError :=
  .driver "pq: duplicate key value violates unique constraint \x22tasks_pkey\x22"

/-- The row that `INSERT INTO tasks (title) VALUES ($1)` builds from a freshly drawn
identifier: `done` and `created_at` take their defaults. -/
def newRow (id : Int) (title : String) (now : Nat) : Row :=
  { id := id, title := title, done := some false, created_at := some now }

/-- The row whose four columns hold the fields of a task. -/
def Task.toRow (t : Task) : Row :=
  { id := t.ID, title := t.Title, done := some t.Done, created_at := some t.CreatedAt }

/-- The call `rows.Scan(&t.ID, &t.Title, &t.Done, &t.CreatedAt)` (lines 44, 68 and 88) on
the current row: the columns are converted in order, and `database/sql` refuses to store
NULL into a `bool` or a `time.Time`. -/
def Row.scan (r : Row) : Except GoError Task :=
  match r.done with
  | none =>
    .error (.driver ("sql: Scan error on column index 2, name \x22done\x22: " ++
      "converting NULL to bool is unsupported"))
  | some d =>
    match r.created_at with
    | none =>
      .error (.driver ("sql: Scan error on column index 3, name \x22created_at\x22: " ++
        "unsupported Scan, storing driver.Value type <nil> into type *time.Time"))
    | some c => .ok { ID := r.id, Title := r.title, Done := d, CreatedAt := c }

/-- The clause `ORDER BY id` of the two listing queries (lines 34 and 55): the result set in
ascending order of the `id` column. -/
def orderByID (l : List Row) : List Row :=
  l.insertionSort (fun a b => a.id ≤ b.id)

/-- The call `r.DB.QueryRowContext(ctx, "INSERT INTO tasks (title) VALUES ($1) RETURNING id;",
title).Scan(&id)`: one round-trip in autocommit mode.  The server draws the next value of
the sequence (which is consumed even when the statement then fails) and enforces the
primary key. -/
def Store.queryRowInsert (s : Store) (title : String) : Store × Except GoError Int :=
  match s.pop with
  | (some m, s1) => (s1.record (.insertReturning title) (some (.driver m)), .error (.driver m))
  | (none, s1) =>
    let id := s1.seq + 1
    let s2 := { s1 with seq := id }
    if id ∈ s2.rows.map Row.id then
      (s2.record (.insertReturning title) (some pkViolation), .error pkViolation)
    else
      ({ s2 with rows := s2.rows ++ [newRow id title s2.now] }.record (.insertReturning title) none,
        .ok id)

/-- The call `r.DB.QueryContext(ctx, q, args...)` of a listing query whose result set is
`result`. -/
def Store.queryContext (s : Store) (c : Call) (result : List Row) :
    Store × Except GoError (List Row) :=
  match s.pop with
  | (some m, s1) => (s1.record c (some (.driver m)), .error (.driver m))
  | (none, s1) => (s1.record c none, .ok result)

/-- The loop `for rows.Next() { var t Task; if err := rows.Scan(...); err != nil { return nil,
err }; out = append(out, t) }` of `ListTasks` and `ListDone`.  Every `rows.Next()` is a
round-trip that may fail, which ends the iteration with the error kept in the cursor.
The result is `.error err` when the function returns from inside the loop on a failed
`Scan`, and `.ok (out, rowsErr)` when the loop ends, `rowsErr` being the value of
`rows.Err()`. -/
def scanLoop (s : Store) :
    List Row → List Task → Store × Except GoError (List Task × Option GoError)
  | [], out =>
    match s.pop with
    | (some m, s1) => (s1.record .next (some (.driver m)), .ok (out, some (.driver m)))
    | (none, s1) => (s1.record .next none, .ok (out, none))
  | r :: rest, out =>
    match s.pop with
    | (some m, s1) => (s1.record .next (some (.driver m)), .ok (out, some (.driver m)))
    | (none, s1) =>
      match r.scan with
      | .error err => (s1.record .next none, .error err)
      | .ok t => scanLoop (s1.record .next none) rest (out ++ [t])

/-- ListTasks of `repository.go` (lines 33-50): `nil, err` when the query or a `Scan` fails,
otherwise `out, rows.Err()`. -/
def ListTasks (s : Store) : Store × List Task × Option GoError :=
  match s.queryContext .selectAll (orderByID s.rows) with
  | (s1, .error err) => (s1, [], some err)
  | (s1, .ok rows) =>
    match scanLoop s1 rows [] with
    | (s2, .error err) => (s2, [], some err)
    | (s2, .ok (out, rowsErr)) => (s2, out, rowsErr)

/-- ListDone of `repository.go` (lines 53-80): `WHERE done = $1` keeps the rows whose `done`
is the given value (a NULL is equal to neither); `nil, err` when the query, a `Scan` or
the iteration fails, otherwise `tasks, nil`. -/
def ListDone (s : Store) (done : Bool) : Store × List Task × Option GoError :=
  match s.queryContext (.selectDone done)
      (orderByID (s.rows.filter (fun r => r.done == some done))) with
  | (s1, .error err) => (s1, [], some err)
  | (s1, .ok rows) =>
    match scanLoop s1 rows [] with
    | (s2, .error err) => (s2, [], some err)
    | (s2, .ok (tasks, rowsErr)) =>
      match rowsErr with
      | some err => (s2, [], some err)
      | none => (s2, tasks, none)

/-- The call `r.DB.QueryRowContext(ctx, "SELECT ... FROM tasks WHERE id = $1;", id).Scan(...)`:
the error of the query, or `sql.ErrNoRows` when the result is empty, or the `Scan` of the
first row of the result. -/
def Store.queryRowSelect (s : Store) (id : Int) : Store × Except GoError Task :=
  match s.pop with
  | (some m, s1) => (s1.record (.selectByID id) (some (.driver m)), .error (.driver m))
  | (none, s1) =>
    match s1.rows.find? (fun r => r.id == id) with
    | none => (s1.record (.selectByID id) (some .errNoRows), .error .errNoRows)
    | some r =>
      match r.scan with
      | .error err => (s1.record (.selectByID id) (some err), .error err)
      | .ok t => (s1.record (.selectByID id) none, .ok t)

/-- FindByID of `repository.go` (lines 83-99). -/
def FindByID (s : Store) (id : Int) : Store × Option Task × Option GoError :=
  match s.queryRowSelect id with
  | (s1, .error err) =>
    if err = .errNoRows then
      (s1, none, some (.errorf ("задача с ID " ++ toString id ++ " не найдена")))
    else
      (s1, none, some err)
  | (s1, .ok task) => (s1, some task, none)

/-- CreateTask of `repository.go` (lines 25-30); `id` keeps its zero value when `Scan` fails. -/
def CreateTask (s : Store) (title : String) : Store × Int × Option GoError :=
  match s.queryRowInsert title with
  | (s1, .ok id) => (s1, id, none)
  | (s1, .error err) => (s1, 0, some err)

/-- The call `r.DB.BeginTx(ctx, nil)`. -/
def Store.beginTx (s : Store) : Store × Except GoError Tx :=
  match s.pop with
  | (some m, s1) => (s1.record .beginTx (some (.driver m)), .error (.driver m))
  | (none, s1) => (s1.record .beginTx none, .ok ⟨[]⟩)

/-- The call `tx.PrepareContext(ctx, q)`; the statement handle carries no data of its own. -/
def Store.prepareContext (s : Store) : Store × Option GoError :=
  match s.pop with
  | (some m, s1) => (s1.record .prepare (some (.driver m)), some (.driver m))
  | (none, s1) => (s1.record .prepare none, none)

/-- The call `stmt.ExecContext(ctx, title)` inside the transaction: the row is added to the
uncommitted rows of the transaction, the committed rows stay as they are. -/
def Store.execContext (s : Store) (tx : Tx) (title : String) : Store × Tx × Option GoError :=
  match s.pop with
  | (some m, s1) => (s1.record (.exec title) (some (.driver m)), tx, some (.driver m))
  | (none, s1) =>
    let id := s1.seq + 1
    let s2 := { s1 with seq := id }
    if id ∈ (s2.rows ++ tx.pending).map Row.id then
      (s2.record (.exec title) (some pkViolation), tx, some pkViolation)
    else
      (s2.record (.exec title) none, ⟨tx.pending ++ [newRow id title s2.now]⟩, none)

/-- The call `tx.Commit()`: on success the rows of the transaction become committed rows. -/
def Store.commit (s : Store) (tx : Tx) : Store × Option GoError :=
  match s.pop with
  | (some m, s1) => (s1.record .commit (some (.driver m)), some (.driver m))
  | (none, s1) => ({ s1 with rows := s1.rows ++ tx.pending }.record .commit none, none)

/-- The call `tx.Rollback()`: the rows of the transaction are dropped; its result is not
looked at by the caller. -/
def Store.rollback (s : Store) (_tx : Tx) : Store :=
  s.record .rollback none

/-- The call `stmt.Close()`, whose result is not looked at by the caller. -/
def Store.stmtClose (s : Store) : Store :=
  s.record .stmtClose none

/-- The loop of `CreateMany` (lines 126-131).  Its `err` is declared by `:=` inside the loop
body, a variable of its own: the result is the value the function returns from inside
the loop (`none` when the loop runs to its end), and the `err` of the function body is
not assigned. -/
def insertLoop (s : Store) (tx : Tx) : List String → Store × Tx × Option GoError
  | [] => (s, tx, none)
  | title :: rest =>
    match s.execContext tx title with
    | (s1, tx1, some err) =>
      (s1, tx1, some (.errorf ("не удалось вставить задачу \x27" ++ title ++ "\x27: " ++ err.Error)))
    | (s1, tx1, none) => insertLoop s1 tx1 rest

/-- The deferred closure of `CreateMany` (lines 110-115), run when the function returns: it
reads the variable `err` of the function body. -/
def deferredRollback (s : Store) (tx : Tx) (err : Option GoError) : Store :=
  if err ≠ none then s.rollback tx else s

/-- CreateMany of `repository.go` (lines 102-139).  The function has an unnamed result, so a
`return` does not write the variable `err` of the function body; that variable is
assigned by `BeginTx` (line 104) and by `PrepareContext` (line 119) only, and it is the
one the deferred closure reads.  Deferred calls run last in, first out: `stmt.Close()`,
then the rollback check. -/
def CreateMany (s : Store) (titles : List String) : Store × Option GoError :=
  match s.beginTx with
  | (s1, .error e) =>
    (s1, some (.errorf ("не удалось начать транзакцию: " ++ e.Error)))
  | (s1, .ok tx) =>
    match s1.prepareContext with
    | (s2, err) =>
      match err with
      | some e =>
        (deferredRollback s2 tx err,
          some (.errorf ("не удалось подготовить запрос: " ++ e.Error)))
      | none =>
        match insertLoop s2 tx titles with
        | (s3, tx3, some ret) => (deferredRollback s3.stmtClose tx3 err, some ret)
        | (s3, tx3, none) =>
          match s3.commit tx3 with
          | (s4, some cerr) =>
            (deferredRollback s4.stmtClose tx3 err,
              some (.errorf ("не удалось подтвердить транзакцию: " ++ cerr.Error)))
          | (s4, none) => (deferredRollback s4.stmtClose tx3 err, none)

/-- A store without rows, scheduled faults or journal. -/
def emptyStore : Store :=
  { rows := [], seq := 0, now := 0, faults := [], log := [] }

/-- The primary key of the table: no two committed rows have the same `id`. -/
def Store.WF (s : Store) : Prop :=
  (s.rows.map Row.id).Nodup

/-- The environment lets the next `k` round-trips through. -/
def Store.worksFor (s : Store) (k : Nat) : Prop :=
  ∀ f ∈ s.faults.take k, f = none

instance Store.decidableWF (s : Store) : Decidable s.WF :=
  inferInstanceAs (Decidable (s.rows.map Row.id).Nodup)

instance Store.decidableWorksFor (s : Store) (k : Nat) : Decidable (s.worksFor k) :=
  inferInstanceAs (Decidable (∀ f ∈ s.faults.take k, f = none))

instance idLe_total : IsTotal Row (fun a b => a.id ≤ b.id) :=
  ⟨fun a b => le_total a.id b.id⟩

instance idLe_trans : IsTrans Row (fun a b => a.id ≤ b.id) :=
  ⟨fun _ _ _ hab hbc => le_trans hab hbc⟩

/-- A store with three committed rows out of identifier order, one of them done. -/
def sampleStore : Store :=
  { rows := [⟨2, "b", some true, some 5⟩, ⟨1, "a", some false, some 3⟩,
      ⟨3, "c", some false, some 7⟩],
    seq := 3, now := 9, faults := [], log := [] }

/-- A store that holds a row with identifier 4 and whose next round-trip fails with an error
of the text that `FindByID` gives its own not-found error for that identifier. -/
def sameTextStore : Store :=
  { rows := [⟨4, "d", some false, some 8⟩], seq := 4, now := 9,
    faults := [some "задача с ID 4 не найдена"], log := [] }

/-- A store with a row whose `done` is NULL. -/
def nullDoneStore : Store :=
  { rows := [⟨1, "a", some false, some 3⟩, ⟨2, "b", none, some 5⟩],
    seq := 2, now := 9, faults := [], log := [] }

/-- A store whose sequence is behind the table: identifier 2 is taken, the sequence will
hand out 1 and then 2. -/
def behindStore : Store :=
  { rows := [⟨2, "x", some false, some 0⟩], seq := 0, now := 1, faults := [], log := [] }

/-- A store on which the fourth round-trip fails: the context deadline elapses. -/
def deadlineStore : Store :=
  { rows := [⟨1, "x", some false, some 0⟩], seq := 1, now := 1,
    faults := [none, none, none, some "context deadline exceeded"], log := [] }

/-- A store on which the second round-trip fails. -/
def prepareFailStore : Store :=
  { rows := [⟨1, "x", some false, some 0⟩], seq := 1, now := 1,
    faults := [none, some "context deadline exceeded"], log := [] }

/-- Tells the calls `stmt.ExecContext` apart from the others. -/
def Call.isExec : Call → Bool
  | .exec _ => true
  | _ => false

/-! ## Scanning rows into tasks -/

theorem scan_toRow (t : Task) : t.toRow.scan = .ok t := rfl

theorem scan_ok (r : Row) (t : Task) (h : r.scan = .ok t) : t.toRow = r := by
  rcases r with ⟨id, title, _ | d, _ | c⟩
  · simp [Row.scan] at h
  · simp [Row.scan] at h
  · simp [Row.scan] at h
  · simp only [Row.scan, Except.ok.injEq] at h
    subst h
    rfl

theorem scan_error (r : Row) (e : GoError) (h : r.scan = .error e) : ∃ m, e = .driver m := by
  rcases r with ⟨id, title, _ | d, _ | c⟩
  · simp only [Row.scan, Except.error.injEq] at h
    exact ⟨_, h.symm⟩
  · simp only [Row.scan, Except.error.injEq] at h
    exact ⟨_, h.symm⟩
  · simp only [Row.scan, Except.error.injEq] at h
    exact ⟨_, h.symm⟩
  · simp [Row.scan] at h

theorem scan_of_not_null (r : Row) (h : r.done ≠ none ∧ r.created_at ≠ none) :
    ∃ t, r.scan = .ok t := by
  rcases r with ⟨id, title, _ | d, _ | c⟩
  · exact absurd rfl h.1
  · exact absurd rfl h.1
  · exact absurd rfl h.2
  · exact ⟨_, rfl⟩

theorem toRow_injective : Function.Injective Task.toRow := by
  intro a b h
  rcases a with ⟨i, t, d, c⟩
  rcases b with ⟨i2, t2, d2, c2⟩
  simp only [Task.toRow, Row.mk.injEq, Option.some.injEq] at h
  obtain ⟨h1, h2, h3, h4⟩ := h
  subst h1 h2 h3 h4
  rfl

theorem map_toRow_injective (l1 l2 : List Task) (h : l1.map Task.toRow = l2.map Task.toRow) :
    l1 = l2 :=
  toRow_injective.list_map h

theorem filter_map_toRow (p : Row → Bool) (l : List Task) :
    (l.map Task.toRow).filter p = (l.filter (fun t => p t.toRow)).map Task.toRow := by
  induction l with
  | nil => rfl
  | cons t l ih =>
    by_cases hp : p t.toRow
    · simp [List.filter_cons, hp, ih]
    · simp [List.filter_cons, hp, ih]

/-! ## The store primitives -/

theorem scanLoop_rows (l : List Row) : ∀ (s : Store) (acc : List Task),
    (scanLoop s l acc).1.rows = s.rows := by
  induction l with
  | nil =>
    intro s acc
    rcases s with ⟨rows, seq, now, faults, log⟩
    rcases faults with _ | ⟨_ | m, fs⟩ <;> simp [scanLoop, Store.pop, Store.record]
  | cons r rest ih =>
    intro s acc
    rcases s with ⟨rows, seq, now, faults, log⟩
    rcases faults with _ | ⟨_ | m, fs⟩
    · simp only [scanLoop, Store.pop, Store.record]
      cases r.scan with
      | error e => rfl
      | ok t => simp [ih]
    · simp only [scanLoop, Store.pop, Store.record]
      cases r.scan with
      | error e => rfl
      | ok t => simp [ih]
    · simp [scanLoop, Store.pop, Store.record]

theorem scanLoop_ok (l : List Row) : ∀ (s : Store) (acc out : List Task),
    (scanLoop s l acc).2 = .ok (out, none) →
    ∃ ts : List Task, out = acc ++ ts ∧ ts.map Task.toRow = l := by
  induction l with
  | nil =>
    intro s acc out
    rcases s with ⟨rows, seq, now, faults, log⟩
    rcases faults with _ | ⟨_ | m, fs⟩
    · simp only [scanLoop, Store.pop, Store.record, Except.ok.injEq, Prod.mk.injEq, and_true]
      intro h; exact ⟨[], by simp [h], rfl⟩
    · simp only [scanLoop, Store.pop, Store.record, Except.ok.injEq, Prod.mk.injEq, and_true]
      intro h; exact ⟨[], by simp [h], rfl⟩
    · simp [scanLoop, Store.pop, Store.record]
  | cons r rest ih =>
    intro s acc out
    rcases s with ⟨rows, seq, now, faults, log⟩
    have step : ∀ s1 : Store,
        (match r.scan with
          | .error err => (s1, (Except.error err : Except GoError (List Task × Option GoError)))
          | .ok t => scanLoop s1 rest (acc ++ [t])).2 = .ok (out, none) →
        ∃ ts : List Task, out = acc ++ ts ∧ ts.map Task.toRow = r :: rest := by
      intro s1 h
      cases hsc : r.scan with
      | error e => rw [hsc] at h; simp at h
      | ok t =>
        rw [hsc] at h
        obtain ⟨ts, h1, h2⟩ := ih s1 (acc ++ [t]) out h
        exact ⟨t :: ts, by simp [h1], by simp [h2, scan_ok r t hsc]⟩
    rcases faults with _ | ⟨_ | m, fs⟩
    · simp only [scanLoop, Store.pop, Store.record]
      exact step _
    · simp only [scanLoop, Store.pop, Store.record]
      exact step _
    · simp [scanLoop, Store.pop, Store.record]

theorem scanLoop_works (l : List Row) : ∀ (s : Store) (acc : List Task),
    s.worksFor (l.length + 1) → (∀ r ∈ l, r.done ≠ none ∧ r.created_at ≠ none) →
    ∃ out, (scanLoop s l acc).2 = .ok (out, none) := by
  induction l with
  | nil =>
    intro s acc
    rcases s with ⟨rows, seq, now, faults, log⟩
    rcases faults with _ | ⟨_ | m, fs⟩ <;> simp [scanLoop, Store.pop, Store.record, Store.worksFor]
  | cons r rest ih =>
    intro s acc hw hn
    obtain ⟨t, ht⟩ := scan_of_not_null r (hn r (List.mem_cons_self _ _))
    have hn2 : ∀ x ∈ rest, x.done ≠ none ∧ x.created_at ≠ none :=
      fun x hx => hn x (List.mem_cons_of_mem _ hx)
    rcases s with ⟨rows, seq, now, faults, log⟩
    rcases faults with _ | ⟨_ | m, fs⟩
    · simp only [scanLoop, Store.pop, Store.record, ht]
      exact ih _ _ (by simp [Store.worksFor]) hn2
    · simp only [scanLoop, Store.pop, Store.record, ht]
      apply ih _ _ _ hn2
      simp only [Store.worksFor, List.length_cons, List.take_succ_cons, List.mem_cons] at hw
      intro f hf
      exact hw f (Or.inr hf)
    · simp [Store.worksFor] at hw

theorem ListTasks_rows (s : Store) : (ListTasks s).1.rows = s.rows := by
  rcases s with ⟨rows, seq, now, faults, log⟩
  rcases faults with _ | ⟨_ | m, fs⟩
  · simp only [ListTasks, Store.queryContext, Store.pop, Store.record]
    split <;> rename_i h <;>
      simpa using (congrArg (fun r => r.1.rows) h).symm.trans (scanLoop_rows _ _ _)
  · simp only [ListTasks, Store.queryContext, Store.pop, Store.record]
    split <;> rename_i h <;>
      simpa using (congrArg (fun r => r.1.rows) h).symm.trans (scanLoop_rows _ _ _)
  · simp [ListTasks, Store.queryContext, Store.pop, Store.record]

theorem ListTasks_ok (s : Store) (h : (ListTasks s).2.2 = none) :
    (ListTasks s).2.1.map Task.toRow = orderByID s.rows := by
  rcases s with ⟨rows, seq, now, faults, log⟩
  have step : ∀ s1 : Store,
      (match scanLoop s1 (orderByID rows) [] with
        | (s2, .error err) => (s2, ([] : List Task), some err)
        | (s2, .ok (out, rowsErr)) => (s2, out, rowsErr)).2.2 = none →
      (match scanLoop s1 (orderByID rows) [] with
        | (s2, .error err) => (s2, ([] : List Task), some err)
        | (s2, .ok (out, rowsErr)) => (s2, out, rowsErr)).2.1.map Task.toRow = orderByID rows := by
    intro s1 h
    rcases hL : scanLoop s1 (orderByID rows) [] with ⟨s2, e | ⟨out, _ | e⟩⟩
    · rw [hL] at h; simp at h
    · obtain ⟨ts, h1, h2⟩ := scanLoop_ok _ s1 [] out (by rw [hL])
      simp only [List.nil_append] at h1
      subst h1
      exact h2
    · rw [hL] at h; simp at h
  rcases faults with _ | ⟨_ | m, fs⟩
  · simp only [ListTasks, Store.queryContext, Store.pop, Store.record] at h ⊢
    exact step _ h
  · simp only [ListTasks, Store.queryContext, Store.pop, Store.record] at h ⊢
    exact step _ h
  · simp [ListTasks, Store.queryContext, Store.pop, Store.record] at h

theorem ListDone_rows (s : Store) (b : Bool) : (ListDone s b).1.rows = s.rows := by
  rcases s with ⟨rows, seq, now, faults, log⟩
  have step : ∀ (s1 : Store) (l : List Row),
      (match scanLoop s1 l [] with
        | (s2, .error err) => (s2, ([] : List Task), some err)
        | (s2, .ok (tasks, rowsErr)) =>
          match rowsErr with
          | some err => (s2, [], some err)
          | none => (s2, tasks, none)).1.rows = s1.rows := by
    intro s1 l
    have hr := scanLoop_rows l s1 []
    rcases hL : scanLoop s1 l [] with ⟨s2, e | ⟨out, _ | e⟩⟩ <;> rw [hL] at hr <;> exact hr
  rcases faults with _ | ⟨_ | m, fs⟩
  · simp only [ListDone, Store.queryContext, Store.pop, Store.record]
    exact step _ _
  · simp only [ListDone, Store.queryContext, Store.pop, Store.record]
    exact step _ _
  · simp [ListDone, Store.queryContext, Store.pop, Store.record]

theorem ListDone_ok (s : Store) (b : Bool) (h : (ListDone s b).2.2 = none) :
    (ListDone s b).2.1.map Task.toRow =
      orderByID (s.rows.filter (fun r => r.done == some b)) := by
  rcases s with ⟨rows, seq, now, faults, log⟩
  have step : ∀ (s1 : Store) (l : List Row),
      (match scanLoop s1 l [] with
        | (s2, .error err) => (s2, ([] : List Task), some err)
        | (s2, .ok (tasks, rowsErr)) =>
          match rowsErr with
          | some err => (s2, [], some err)
          | none => (s2, tasks, none)).2.2 = none →
      (match scanLoop s1 l [] with
        | (s2, .error err) => (s2, ([] : List Task), some err)
        | (s2, .ok (tasks, rowsErr)) =>
          match rowsErr with
          | some err => (s2, [], some err)
          | none => (s2, tasks, none)).2.1.map Task.toRow = l := by
    intro s1 l h
    rcases hL : scanLoop s1 l [] with ⟨s2, e | ⟨out, _ | e⟩⟩
    · rw [hL] at h; simp at h
    · obtain ⟨ts, h1, h2⟩ := scanLoop_ok _ s1 [] out (by rw [hL])
      simp only [List.nil_append] at h1
      subst h1
      exact h2
    · rw [hL] at h; simp at h
  rcases faults with _ | ⟨_ | m, fs⟩
  · simp only [ListDone, Store.queryContext, Store.pop, Store.record] at h ⊢
    exact step _ _ h
  · simp only [ListDone, Store.queryContext, Store.pop, Store.record] at h ⊢
    exact step _ _ h
  · simp [ListDone, Store.queryContext, Store.pop, Store.record] at h

/-! ## Ordering by identifier -/

theorem orderedInsert_head_of_forall (a : Row) (l : List Row)
    (h : ∀ b ∈ l, a.id ≤ b.id) :
    l.orderedInsert (fun a b => a.id ≤ b.id) a = a :: l := by
  cases l with
  | nil => rfl
  | cons b l =>
    have hab : a.id ≤ b.id := h b (List.mem_cons_self _ _)
    simp [List.orderedInsert, hab]

theorem filter_orderedInsert (p : Row → Bool) (a : Row) (l : List Row)
    (hl : l.Sorted (fun a b => a.id ≤ b.id)) :
    (l.orderedInsert (fun a b => a.id ≤ b.id) a).filter p =
      if p a then (l.filter p).orderedInsert (fun a b => a.id ≤ b.id) a else l.filter p := by
  induction l with
  | nil => by_cases hp : p a <;> simp [hp]
  | cons b l ih =>
    have hl2 : l.Sorted (fun a b => a.id ≤ b.id) := hl.of_cons
    have hb : ∀ c ∈ l, b.id ≤ c.id := fun c hc => List.rel_of_sorted_cons hl c hc
    by_cases hab : a.id ≤ b.id
    · have hins : (b :: l).orderedInsert (fun a b => a.id ≤ b.id) a = a :: b :: l := by
        simp [List.orderedInsert, hab]
      rw [hins]
      by_cases hp : p a
      · have hall : ∀ c ∈ (b :: l).filter p, a.id ≤ c.id := by
          intro c hc
          rcases List.mem_cons.1 (List.mem_filter.1 hc).1 with rfl | hc2
          · exact hab
          · exact le_trans hab (hb c hc2)
        rw [if_pos hp, orderedInsert_head_of_forall a _ hall, List.filter_cons_of_pos hp]
      · rw [if_neg hp, List.filter_cons_of_neg hp]
    · have hins : (b :: l).orderedInsert (fun a b => a.id ≤ b.id) a =
          b :: l.orderedInsert (fun a b => a.id ≤ b.id) a := by
        simp [List.orderedInsert, hab]
      rw [hins]
      by_cases hq : p b
      · rw [List.filter_cons_of_pos hq, List.filter_cons_of_pos hq, ih hl2]
        by_cases hp : p a
        · simp [hp, List.orderedInsert, hab]
        · simp [hp]
      · rw [List.filter_cons_of_neg hq, List.filter_cons_of_neg hq, ih hl2]

theorem filter_orderByID (p : Row → Bool) (l : List Row) :
    (orderByID l).filter p = orderByID (l.filter p) := by
  induction l with
  | nil => rfl
  | cons a l ih =>
    have hs : (orderByID l).Sorted (fun a b => a.id ≤ b.id) := List.sorted_insertionSort _ l
    have h1 : orderByID (a :: l) = (orderByID l).orderedInsert (fun a b => a.id ≤ b.id) a := rfl
    rw [h1, filter_orderedInsert p a _ hs, ih]
    by_cases hp : p a
    · rw [if_pos hp, List.filter_cons_of_pos hp]
      rfl
    · rw [if_neg hp, List.filter_cons_of_neg hp]

theorem orderByID_perm (l : List Row) : (orderByID l).Perm l :=
  List.perm_insertionSort _ l

theorem orderByID_strict (l : List Row) (h : (l.map Row.id).Nodup) :
    (orderByID l).Pairwise (fun a b => a.id < b.id) := by
  have hs : (orderByID l).Sorted (fun a b => a.id ≤ b.id) := List.sorted_insertionSort _ l
  have hn : ((orderByID l).map Row.id).Nodup :=
    ((orderByID_perm l).map Row.id).nodup_iff.2 h
  have hne : (orderByID l).Pairwise (fun a b => a.id ≠ b.id) := by
    have := List.pairwise_map.1 hn
    exact this
  exact (List.Pairwise.and hs hne).imp (fun h => lt_of_le_of_ne h.1 h.2)

theorem ListTasks_works (s : Store) (hw : s.worksFor (s.rows.length + 2))
    (hn : ∀ r ∈ s.rows, r.done ≠ none ∧ r.created_at ≠ none) :
    (ListTasks s).2.2 = none := by
  rcases s with ⟨rows, seq, now, faults, log⟩
  have hlen : (orderByID rows).length = rows.length := (orderByID_perm rows).length_eq
  have hn2 : ∀ r ∈ orderByID rows, r.done ≠ none ∧ r.created_at ≠ none :=
    fun r hr => hn r ((orderByID_perm rows).mem_iff.1 hr)
  have step : ∀ s1 : Store, s1.worksFor ((orderByID rows).length + 1) →
      (match scanLoop s1 (orderByID rows) [] with
        | (s2, .error err) => (s2, ([] : List Task), some err)
        | (s2, .ok (out, rowsErr)) => (s2, out, rowsErr)).2.2 = none := by
    intro s1 hw1
    obtain ⟨out, ho⟩ := scanLoop_works _ s1 [] hw1 hn2
    rcases hL : scanLoop s1 (orderByID rows) [] with ⟨s2, e | ⟨out2, _ | e⟩⟩
    · rw [hL] at ho; simp at ho
    · rfl
    · rw [hL] at ho; simp at ho
  rcases faults with _ | ⟨_ | m, fs⟩
  · simp only [ListTasks, Store.queryContext, Store.pop, Store.record]
    exact step _ (by simp [Store.worksFor])
  · simp only [ListTasks, Store.queryContext, Store.pop, Store.record]
    apply step
    simp only [Store.worksFor, List.take_succ_cons, List.mem_cons] at hw
    intro f hf
    rw [hlen] at hf
    exact hw f (Or.inr hf)
  · simp [Store.worksFor] at hw

theorem ListTasks_empty (s : Store) (he : s.rows = []) (hw : s.worksFor 2) :
    (ListTasks s).2 = ([], none) := by
  rcases s with ⟨rows, seq, now, faults, log⟩
  simp only at he
  subst he
  rcases faults with _ | ⟨_ | m, _ | ⟨_ | m2, fs⟩⟩ <;>
    first
    | (simp [Store.worksFor] at hw; done)
    | simp [ListTasks, Store.queryContext, scanLoop, orderByID, Store.pop, Store.record]

/-! ## Listing -/

/-- C7: whenever `ListTasks` returns a nil error, the result holds every row of the table
exactly once (the rows of the returned tasks are a permutation of the committed rows,
each task carrying the four columns of its row) in ascending `ID` order, strictly
ascending since the identifiers are unique (primary key).  It does return a nil error
when the store lets its round-trips through and no row holds a NULL; and on an empty
table whose two round-trips (the query and the one `rows.Next()`) work, it returns the
empty sequence with a nil error: an empty table is not an error. -/
theorem ListTasks_all_rows_ascending (s : Store) :
    ((ListTasks s).2.2 = none →
      ((ListTasks s).2.1.map Task.toRow).Perm s.rows ∧
      (ListTasks s).2.1.Pairwise (fun a b => a.ID ≤ b.ID) ∧
      (s.WF → (ListTasks s).2.1.Pairwise (fun a b => a.ID < b.ID))) ∧
    (s.worksFor (s.rows.length + 2) → (∀ r ∈ s.rows, r.done ≠ none ∧ r.created_at ≠ none) →
      (ListTasks s).2.2 = none) ∧
    (s.rows = [] → s.worksFor 2 → (ListTasks s).2 = ([], none)) := by
  refine ⟨?_, ListTasks_works s, ListTasks_empty s⟩
  intro h
  have hout := ListTasks_ok s h
  have hle : ((ListTasks s).2.1.map Task.toRow).Pairwise (fun a b => a.id ≤ b.id) := by
    rw [hout]; exact List.sorted_insertionSort _ _
  refine ⟨?_, ?_, ?_⟩
  · rw [hout]; exact orderByID_perm _
  · rw [List.pairwise_map] at hle
    exact hle
  · intro hwf
    have hlt : ((ListTasks s).2.1.map Task.toRow).Pairwise (fun a b => a.id < b.id) := by
      rw [hout]; exact orderByID_strict _ hwf
    rw [List.pairwise_map] at hlt
    exact hlt

theorem ListTasks_all_rows_ascending_witness :
    ((ListTasks sampleStore).2 =
      ([⟨1, "a", false, 3⟩, ⟨2, "b", true, 5⟩, ⟨3, "c", false, 7⟩], none) ∧
      ((ListTasks sampleStore).2.1.map Task.toRow).Perm sampleStore.rows ∧
      (ListTasks sampleStore).2.1.Pairwise (fun a b => a.ID ≤ b.ID) ∧
      (sampleStore.WF → (ListTasks sampleStore).2.1.Pairwise (fun a b => a.ID < b.ID))) ∧
    (emptyStore.rows = [] ∧ emptyStore.worksFor 2 ∧ (ListTasks emptyStore).2 = ([], none)) :=
  ⟨⟨by decide, (ListTasks_all_rows_ascending sampleStore).1 (by decide)⟩,
    by decide, by decide,
    (ListTasks_all_rows_ascending emptyStore).2.2 (by decide) (by decide)⟩

/-- C6: when the queries succeed on stores with the same committed rows, `ListDone b` returns
exactly the rows of `ListTasks` whose `Done` equals `b`, as a subsequence in the same
order; the results for `false` and `true` are disjoint, together they hold every row
of `ListTasks`, and each is what remains of the full result once the other is taken
out. -/
theorem ListDone_partitions_ListTasks (s sf st : Store)
    (hf : sf.rows = s.rows) (ht : st.rows = s.rows)
    (h : (ListTasks s).2.2 = none)
    (h0 : (ListDone sf false).2.2 = none) (h1 : (ListDone st true).2.2 = none) :
    (ListDone sf false).2.1 = (ListTasks s).2.1.filter (fun t => t.Done == false) ∧
    (ListDone st true).2.1 = (ListTasks s).2.1.filter (fun t => t.Done == true) ∧
    (ListDone sf false).2.1.Sublist (ListTasks s).2.1 ∧
    (ListDone st true).2.1.Sublist (ListTasks s).2.1 ∧
    (∀ t, ¬ (t ∈ (ListDone sf false).2.1 ∧ t ∈ (ListDone st true).2.1)) ∧
    (∀ t, t ∈ (ListTasks s).2.1 ↔ t ∈ (ListDone sf false).2.1 ∨ t ∈ (ListDone st true).2.1) ∧
    (ListDone sf false).2.1 =
      (ListTasks s).2.1.filter (fun t => decide (t ∉ (ListDone st true).2.1)) ∧
    (ListDone st true).2.1 =
      (ListTasks s).2.1.filter (fun t => decide (t ∉ (ListDone sf false).2.1)) := by
  have key : ∀ (sb : Store) (b : Bool), sb.rows = s.rows → (ListDone sb b).2.2 = none →
      (ListDone sb b).2.1 = (ListTasks s).2.1.filter (fun t => t.Done == b) := by
    intro sb b hb hok
    apply map_toRow_injective
    rw [ListDone_ok sb b hok, hb, ← filter_orderByID, ← ListTasks_ok s h, filter_map_toRow]
    congr 1
  have e0 := key sf false hf h0
  have e1 := key st true ht h1
  refine ⟨e0, e1, ?_, ?_, ?_, ?_, ?_, ?_⟩
  · rw [e0]; exact List.filter_sublist _
  · rw [e1]; exact List.filter_sublist _
  · intro t
    rw [e0, e1]
    simp only [List.mem_filter, beq_iff_eq]
    rintro ⟨⟨_, hx⟩, ⟨_, hy⟩⟩
    rw [hx] at hy
    exact Bool.noConfusion hy
  · intro t
    rw [e0, e1]
    simp only [List.mem_filter, beq_iff_eq]
    constructor
    · intro hm
      cases hd : t.Done
      · exact Or.inl ⟨hm, rfl⟩
      · exact Or.inr ⟨hm, rfl⟩
    · rintro (⟨hm, _⟩ | ⟨hm, _⟩) <;> exact hm
  · rw [e0]
    apply List.filter_congr
    intro t hm
    rw [e1]
    cases hd : t.Done <;> simp [List.mem_filter, hm, hd]
  · rw [e1]
    apply List.filter_congr
    intro t hm
    rw [e0]
    cases hd : t.Done <;> simp [List.mem_filter, hm, hd]

theorem ListDone_partitions_ListTasks_witness :
    (ListDone (ListTasks sampleStore).1 false).2.1 = [⟨1, "a", false, 3⟩, ⟨3, "c", false, 7⟩] ∧
    (ListDone (ListDone (ListTasks sampleStore).1 false).1 true).2.1 = [⟨2, "b", true, 5⟩] ∧
    (ListDone (ListTasks sampleStore).1 false).2.1 =
      (ListTasks sampleStore).2.1.filter (fun t => t.Done == false) :=
  ⟨by decide, by decide,
    (ListDone_partitions_ListTasks sampleStore (ListTasks sampleStore).1
      (ListDone (ListTasks sampleStore).1 false).1 (by decide) (by decide) (by decide)
      (by decide) (by decide)).1⟩

theorem queryRowSelect_rows (s : Store) (id : Int) :
    (s.queryRowSelect id).1.rows = s.rows := by
  rcases s with ⟨rows, seq, now, faults, log⟩
  rcases faults with _ | ⟨_ | m, fs⟩
  · simp only [Store.queryRowSelect, Store.pop]
    split
    · rfl
    · split <;> rfl
  · simp only [Store.queryRowSelect, Store.pop]
    split
    · rfl
    · split <;> rfl
  · rfl

theorem queryRowSelect_up (s : Store) (id : Int) (hup : s.worksFor 1) :
    (s.queryRowSelect id).2 =
      match s.rows.find? (fun r => r.id == id) with
      | none => .error .errNoRows
      | some r => r.scan := by
  rcases s with ⟨rows, seq, now, faults, log⟩
  rcases faults with _ | ⟨_ | m, fs⟩
  · simp only [Store.queryRowSelect, Store.pop]
    split
    · rfl
    · split <;> rename_i h <;> rw [h]
  · simp only [Store.queryRowSelect, Store.pop]
    split
    · rfl
    · split <;> rename_i h <;> rw [h]
  · simp [Store.worksFor] at hup

theorem FindByID_rows (s : Store) (id : Int) : (FindByID s id).1.rows = s.rows := by
  have hr := queryRowSelect_rows s id
  rcases hq : s.queryRowSelect id with ⟨s1, e | t⟩
  · rw [hq] at hr
    simp only [FindByID, hq]
    split <;> exact hr
  · rw [hq] at hr
    simp only [FindByID, hq]
    exact hr

/-- C9: `ListTasks`, `ListDone` and `FindByID` leave the committed rows as they are, and a
successful `ListTasks` returns a sequence fixed by the committed rows alone; hence two
calls in a row, with no write in between, that both succeed return the same ordered
sequence. -/
theorem ListTasks_twice_identical (s : Store) :
    (ListTasks s).1.rows = s.rows ∧
    (∀ b, (ListDone s b).1.rows = s.rows) ∧
    (∀ id, (FindByID s id).1.rows = s.rows) ∧
    ((ListTasks s).2.2 = none → (ListTasks (ListTasks s).1).2.2 = none →
      (ListTasks (ListTasks s).1).2.1 = (ListTasks s).2.1) ∧
    (∀ s2 : Store, s2.rows = s.rows → (ListTasks s).2.2 = none → (ListTasks s2).2.2 = none →
      (ListTasks s2).2.1 = (ListTasks s).2.1) := by
  refine ⟨ListTasks_rows s, fun b => ListDone_rows s b, fun id => FindByID_rows s id, ?_, ?_⟩
  · intro h1 h2
    apply map_toRow_injective
    rw [ListTasks_ok _ h2, ListTasks_ok _ h1, ListTasks_rows]
  · intro s2 hr h1 hs
    apply map_toRow_injective
    rw [ListTasks_ok _ hs, ListTasks_ok _ h1, hr]

theorem ListTasks_twice_identical_witness :
    (ListTasks sampleStore).2.2 = none ∧ (ListTasks (ListTasks sampleStore).1).2.2 = none ∧
    (ListTasks (ListTasks sampleStore).1).2.1 = (ListTasks sampleStore).2.1 :=
  ⟨by decide, by decide,
    (ListTasks_twice_identical sampleStore).2.2.2.1 (by decide) (by decide)⟩

/-! ## Lookup by identifier and single insert -/

theorem find_absent (l : List Row) (id : Int) (h : id ∉ l.map Row.id) :
    l.find? (fun r => r.id == id) = none := by
  rw [List.find?_eq_none]
  intro t ht hid
  exact h (List.mem_map.2 ⟨t, ht, by simpa using hid⟩)

theorem find_present (l : List Row) (id : Int) (h : l.find? (fun r => r.id == id) = none) :
    id ∉ l.map Row.id := by
  intro hmem
  rw [List.find?_eq_none] at h
  obtain ⟨t, ht, hid⟩ := List.mem_map.1 hmem
  exact h t ht (by simpa using hid)

theorem find_appended (l : List Row) (t : Row) (h : t.id ∉ l.map Row.id) :
    (l ++ [t]).find? (fun r => r.id == t.id) = some t := by
  rw [List.find?_append, find_absent l t.id h]
  simp

theorem FindByID_up (s : Store) (id : Int) (hup : s.worksFor 1) :
    (FindByID s id).2 =
      match s.rows.find? (fun r => r.id == id) with
      | none => (none, some (.errorf ("задача с ID " ++ toString id ++ " не найдена")))
      | some r =>
        match r.scan with
        | .error e => (none, some e)
        | .ok t => (some t, none) := by
  have hu := queryRowSelect_up s id hup
  rcases hq : s.queryRowSelect id with ⟨s1, e | t⟩
  · rw [hq] at hu
    simp only [FindByID, hq]
    cases hf : s.rows.find? (fun r => r.id == id) with
    | none =>
      rw [hf] at hu
      simp only [Except.error.injEq] at hu
      subst hu
      simp
    | some r =>
      rw [hf] at hu
      simp only at hu
      obtain ⟨m, rfl⟩ := scan_error r e hu.symm
      simp [← hu]
  · rw [hq] at hu
    simp only [FindByID, hq]
    cases hf : s.rows.find? (fun r => r.id == id) with
    | none =>
      rw [hf] at hu
      simp at hu
    | some r =>
      rw [hf] at hu
      simp only at hu
      simp [← hu]

theorem FindByID_down (s : Store) (id : Int) (m : String)
    (h : s.faults.head? = some (some m)) :
    (FindByID s id).2 = (none, some (.driver m)) := by
  rcases s with ⟨rows, seq, now, faults, log⟩
  rcases faults with _ | ⟨_ | m2, fs⟩
  · simp at h
  · simp at h
  · simp only [List.head?_cons, Option.some.injEq] at h
    subst h
    simp [FindByID, Store.queryRowSelect, Store.pop, Store.record]

theorem worksFor_one_or (s : Store) :
    s.worksFor 1 ∨ ∃ m, s.faults.head? = some (some m) := by
  rcases s with ⟨rows, seq, now, faults, log⟩
  rcases faults with _ | ⟨_ | m, fs⟩
  · left; simp [Store.worksFor]
  · left; simp [Store.worksFor]
  · right; exact ⟨m, rfl⟩

/-- C4, as the code has it: for an identifier that no row has, `FindByID` returns a nil task,
and when the round-trip itself works the error is the value that `fmt.Errorf` builds at
line 93, of text `задача с ID <id> не найдена`.  `FindByID` builds that value only when
the query ran and matched no row.  Every other failure is returned as the error of the
store, unchanged: the error of a failed round-trip, and the error of the `Scan` of a
matching row that holds a NULL. -/
theorem FindByID_not_found (s : Store) (id : Int) :
    (id ∉ s.rows.map Row.id → (FindByID s id).2.1 = none) ∧
    (id ∉ s.rows.map Row.id → s.worksFor 1 →
      (FindByID s id).2 =
        (none, some (.errorf ("задача с ID " ++ toString id ++ " не найдена")))) ∧
    (∀ msg, (FindByID s id).2.2 = some (.errorf msg) →
      id ∉ s.rows.map Row.id ∧ s.worksFor 1 ∧
        msg = "задача с ID " ++ toString id ++ " не найдена") ∧
    (∀ m, s.faults.head? = some (some m) → (FindByID s id).2 = (none, some (.driver m))) ∧
    (∀ r e, s.worksFor 1 → s.rows.find? (fun r => r.id == id) = some r → r.scan = .error e →
      (FindByID s id).2 = (none, some e)) ∧
    (∀ e, (FindByID s id).2.2 = some e →
      (id ∉ s.rows.map Row.id ∧ s.worksFor 1 ∧
        e = .errorf ("задача с ID " ++ toString id ++ " не найдена")) ∨
      (∃ m, s.faults.head? = some (some m) ∧ e = .driver m) ∨
      (∃ r, s.worksFor 1 ∧ s.rows.find? (fun r => r.id == id) = some r ∧
        r.scan = .error e)) := by
  have cases_up : s.worksFor 1 → ∀ e, (FindByID s id).2.2 = some e →
      (id ∉ s.rows.map Row.id ∧
        e = .errorf ("задача с ID " ++ toString id ++ " не найдена")) ∨
      (∃ r, s.rows.find? (fun r => r.id == id) = some r ∧ r.scan = .error e) := by
    intro hup e h
    rw [FindByID_up s id hup] at h
    cases hf : s.rows.find? (fun r => r.id == id) with
    | none =>
      rw [hf] at h
      simp only [Option.some.injEq] at h
      exact Or.inl ⟨find_present _ _ hf, h.symm⟩
    | some r =>
      rw [hf] at h
      cases hsc : r.scan with
      | error e2 =>
        simp only [hsc, Option.some.injEq] at h
        subst h
        exact Or.inr ⟨r, rfl, hsc⟩
      | ok t =>
        simp [hsc] at h
  refine ⟨?_, ?_, ?_, ?_, ?_, ?_⟩
  · intro habs
    rcases worksFor_one_or s with hup | ⟨m, hm⟩
    · rw [FindByID_up s id hup, find_absent _ _ habs]
    · rw [FindByID_down s id m hm]
  · intro habs hup
    rw [FindByID_up s id hup, find_absent _ _ habs]
  · intro msg h
    rcases worksFor_one_or s with hup | ⟨m, hm⟩
    · rcases cases_up hup _ h with ⟨habs, he⟩ | ⟨r, _, hsc⟩
      · simp only [GoError.errorf.injEq] at he
        exact ⟨habs, hup, he⟩
      · obtain ⟨m, hm⟩ := scan_error r _ hsc
        exact GoError.noConfusion hm
    · rw [FindByID_down s id m hm] at h
      simp at h
  · intro m hm
    exact FindByID_down s id m hm
  · intro r e hup hf hsc
    rw [FindByID_up s id hup, hf]
    simp [hsc]
  · intro e h
    rcases worksFor_one_or s with hup | ⟨m, hm⟩
    · rcases cases_up hup e h with ⟨habs, he⟩ | ⟨r, hf, hsc⟩
      · exact Or.inl ⟨habs, hup, he⟩
      · exact Or.inr (Or.inr ⟨r, hup, hf, hsc⟩)
    · rw [FindByID_down s id m hm] at h
      simp only [Option.some.injEq] at h
      exact Or.inr (Or.inl ⟨m, hm, h.symm⟩)

theorem FindByID_not_found_witness :
    (4 : Int) ∉ sampleStore.rows.map Row.id ∧ sampleStore.worksFor 1 ∧
    (FindByID sampleStore 4).2 = (none, some (.errorf "задача с ID 4 не найдена")) :=
  ⟨by decide, by decide,
    (FindByID_not_found sampleStore 4).2.1 (by decide) (by decide)⟩

/-- C4 fails as stated: the not-found error of `FindByID` is a plain `fmt.Errorf` value with
no type or sentinel of its own, so nothing but its text tells it from an error of the
store.  Here the identifier 4 is absent from one store and present in the other, whose
round-trip fails with an error of the same text: both calls hand the caller a nil task
and an error of the same `Error()` text. -/
theorem FindByID_not_found_same_text :
    (4 : Int) ∉ sampleStore.rows.map Row.id ∧
    (4 : Int) ∈ sameTextStore.rows.map Row.id ∧
    (FindByID sampleStore 4).2 = (none, some (.errorf "задача с ID 4 не найдена")) ∧
    (FindByID sameTextStore 4).2 = (none, some (.driver "задача с ID 4 не найдена")) ∧
    (FindByID sameTextStore 4).2.1 = (FindByID sampleStore 4).2.1 ∧
    (FindByID sameTextStore 4).2.2.map GoError.Error =
      (FindByID sampleStore 4).2.2.map GoError.Error := by
  decide

theorem CreateTask_ok (s : Store) (title : String) (h : (CreateTask s title).2.2 = none) :
    (CreateTask s title).2.1 = s.seq + 1 ∧
    s.seq + 1 ∉ s.rows.map Row.id ∧
    (CreateTask s title).1.rows = s.rows ++ [newRow (s.seq + 1) title s.now] := by
  rcases s with ⟨rows, seq, now, faults, log⟩
  rcases faults with _ | ⟨_ | m, fs⟩
  · simp only [CreateTask, Store.queryRowInsert, Store.pop, Store.record] at h ⊢
    by_cases hm : seq + 1 ∈ rows.map Row.id
    · rw [if_pos hm] at h; simp at h
    · rw [if_neg hm]; exact ⟨rfl, hm, rfl⟩
  · simp only [CreateTask, Store.queryRowInsert, Store.pop, Store.record] at h ⊢
    by_cases hm : seq + 1 ∈ rows.map Row.id
    · rw [if_pos hm] at h; simp at h
    · rw [if_neg hm]; exact ⟨rfl, hm, rfl⟩
  · simp [CreateTask, Store.queryRowInsert, Store.pop, Store.record] at h

/-- C5: when the insert of `CreateTask` succeeds, the identifier returned is the one given to
the inserted row: no row had it before the call, the table is the old table plus the
row with that identifier, the given title and `done = false`, and a following `FindByID`
with that identifier (its round-trip not failing) returns, with a nil error, the task
with that `ID`, the given `Title` and `Done = false`. -/
theorem CreateTask_returns_new_id (s : Store) (title : String)
    (h : (CreateTask s title).2.2 = none) :
    (CreateTask s title).2.1 ∉ s.rows.map Row.id ∧
    (CreateTask s title).1.rows =
      s.rows ++ [newRow (CreateTask s title).2.1 title s.now] ∧
    ((CreateTask s title).1.worksFor 1 →
      ∃ t, (FindByID (CreateTask s title).1 (CreateTask s title).2.1).2 = (some t, none) ∧
        t.ID = (CreateTask s title).2.1 ∧ t.Title = title ∧ t.Done = false) := by
  obtain ⟨hid, hfresh, hrows⟩ := CreateTask_ok s title h
  refine ⟨by rw [hid]; exact hfresh, by rw [hid]; exact hrows, fun hup =>
    ⟨⟨s.seq + 1, title, false, s.now⟩, ?_, hid.symm, rfl, rfl⟩⟩
  rw [FindByID_up _ _ hup, hrows, hid]
  have := find_appended s.rows (newRow (s.seq + 1) title s.now) hfresh
  simp only [newRow] at this ⊢
  rw [this]
  rfl

theorem CreateTask_returns_new_id_witness :
    (CreateTask sampleStore "d").2 = (4, none) ∧
    (CreateTask sampleStore "d").1.worksFor 1 ∧
    ∃ t, (FindByID (CreateTask sampleStore "d").1 (CreateTask sampleStore "d").2.1).2 =
        (some t, none) ∧
      t.ID = (CreateTask sampleStore "d").2.1 ∧ t.Title = "d" ∧ t.Done = false :=
  ⟨by decide, by decide,
    (CreateTask_returns_new_id sampleStore "d" (by decide)).2.2 (by decide)⟩

/-- C8, as the code has it: after a successful `CreateTask` of title `T`, a following
`ListTasks` that succeeds holds exactly one row with the identifier returned, that row
has title `T` and `done = false`, and the rows titled `T` are one more than the table
held before; they are exactly that one row when no earlier row had the title. -/
theorem CreateTask_then_ListTasks (s : Store) (title : String)
    (h : (CreateTask s title).2.2 = none)
    (hl : (ListTasks (CreateTask s title).1).2.2 = none) :
    (ListTasks (CreateTask s title).1).2.1.filter
        (fun t => t.ID == (CreateTask s title).2.1) =
      [⟨(CreateTask s title).2.1, title, false, s.now⟩] ∧
    ((ListTasks (CreateTask s title).1).2.1.filter (fun t => t.Title == title)).length =
      (s.rows.filter (fun r => r.title == title)).length + 1 ∧
    ((∀ r ∈ s.rows, r.title ≠ title) →
      (ListTasks (CreateTask s title).1).2.1.filter (fun t => t.Title == title) =
        [⟨(CreateTask s title).2.1, title, false, s.now⟩]) := by
  obtain ⟨hid, hfresh, hrows⟩ := CreateTask_ok s title h
  have hout := ListTasks_ok _ hl
  rw [hrows] at hout
  have hnew : newRow (s.seq + 1) title s.now = Task.toRow ⟨s.seq + 1, title, false, s.now⟩ := rfl
  have byId : ((ListTasks (CreateTask s title).1).2.1.filter
      (fun t => t.ID == s.seq + 1)).map Task.toRow = [newRow (s.seq + 1) title s.now] := by
    have hfm := filter_map_toRow (fun r => r.id == s.seq + 1) (ListTasks (CreateTask s title).1).2.1
    simp only [Task.toRow] at hfm
    rw [← hfm, hout, filter_orderByID, List.filter_append]
    have h0 : s.rows.filter (fun r => r.id == s.seq + 1) = [] := by
      rw [List.filter_eq_nil_iff]
      intro t ht hid2
      exact hfresh (List.mem_map.2 ⟨t, ht, by simpa using hid2⟩)
    rw [h0]
    simp [newRow, orderByID]
  have byTitle : ((ListTasks (CreateTask s title).1).2.1.filter
      (fun t => t.Title == title)).map Task.toRow =
      orderByID (s.rows.filter (fun r => r.title == title) ++ [newRow (s.seq + 1) title s.now]) := by
    have hfm := filter_map_toRow (fun r => r.title == title) (ListTasks (CreateTask s title).1).2.1
    simp only [Task.toRow] at hfm
    rw [← hfm, hout, filter_orderByID, List.filter_append]
    simp [newRow]
  rw [hid]
  refine ⟨?_, ?_, ?_⟩
  · apply map_toRow_injective
    rw [byId, hnew]
    rfl
  · have := congrArg List.length byTitle
    rw [List.length_map, (orderByID_perm _).length_eq, List.length_append] at this
    simpa using this
  · intro hno
    have h0 : s.rows.filter (fun r => r.title == title) = [] := by
      rw [List.filter_eq_nil_iff]
      intro t ht ht2
      exact hno t ht (by simpa using ht2)
    apply map_toRow_injective
    rw [byTitle, h0, hnew]
    rfl

theorem CreateTask_then_ListTasks_witness :
    (CreateTask sampleStore "a").2.2 = none ∧
    (ListTasks (CreateTask sampleStore "a").1).2.2 = none ∧
    (ListTasks (CreateTask sampleStore "a").1).2.1.filter
        (fun t => t.ID == (CreateTask sampleStore "a").2.1) =
      [⟨(CreateTask sampleStore "a").2.1, "a", false, sampleStore.now⟩] :=
  ⟨by decide, by decide,
    (CreateTask_then_ListTasks sampleStore "a" (by decide) (by decide)).1⟩

/-- C8 fails as stated: the table has no uniqueness constraint on `title`, so inserting the
same title twice (what a second run of `main` does with its sample titles) succeeds both
times, and the listing then holds two rows with that title, not exactly one. -/
theorem CreateTask_same_title_twice :
    (CreateTask emptyStore "Купить кофе").2.2 = none ∧
    (CreateTask (CreateTask emptyStore "Купить кофе").1 "Купить кофе").2.2 = none ∧
    (ListTasks (CreateTask (CreateTask emptyStore "Купить кофе").1 "Купить кофе").1).2 =
      ([⟨1, "Купить кофе", false, 0⟩, ⟨2, "Купить кофе", false, 0⟩], none) ∧
    ((ListTasks (CreateTask (CreateTask emptyStore "Купить кофе").1 "Купить кофе").1).2.1.filter
        (fun t => t.Title == "Купить кофе")).length ≠ 1 := by
  decide

/-! ## The batch insert -/

theorem since_of_log (s s1 : Store) (evs : List Event) (h : s1.log = s.log ++ evs) :
    Store.since s s1 = evs := by
  simp [Store.since, h]

theorem beginTx_spec (s : Store) :
    s.beginTx.1.rows = s.rows ∧ s.beginTx.1.now = s.now ∧
    ((s.beginTx.2 = .ok ⟨[]⟩ ∧ s.beginTx.1.log = s.log ++ [⟨.beginTx, none⟩]) ∨
      ∃ m, s.beginTx.2 = .error (.driver m) ∧
        s.beginTx.1.log = s.log ++ [⟨.beginTx, some (.driver m)⟩]) := by
  rcases s with ⟨rows, seq, now, faults, log⟩
  rcases faults with _ | ⟨_ | m, fs⟩ <;> simp [Store.beginTx, Store.pop, Store.record]

theorem prepareContext_spec (s : Store) :
    s.prepareContext.1.rows = s.rows ∧ s.prepareContext.1.now = s.now ∧
    ((s.prepareContext.2 = none ∧ s.prepareContext.1.log = s.log ++ [⟨.prepare, none⟩]) ∨
      ∃ m, s.prepareContext.2 = some (.driver m) ∧
        s.prepareContext.1.log = s.log ++ [⟨.prepare, some (.driver m)⟩]) := by
  rcases s with ⟨rows, seq, now, faults, log⟩
  rcases faults with _ | ⟨_ | m, fs⟩ <;> simp [Store.prepareContext, Store.pop, Store.record]

theorem commit_spec (s : Store) (tx : Tx) :
    (s.commit tx).1.now = s.now ∧
    (((s.commit tx).2 = none ∧ (s.commit tx).1.rows = s.rows ++ tx.pending ∧
        (s.commit tx).1.log = s.log ++ [⟨.commit, none⟩]) ∨
      ∃ m, (s.commit tx).2 = some (.driver m) ∧ (s.commit tx).1.rows = s.rows ∧
        (s.commit tx).1.log = s.log ++ [⟨.commit, some (.driver m)⟩]) := by
  rcases s with ⟨rows, seq, now, faults, log⟩
  rcases faults with _ | ⟨_ | m, fs⟩ <;> simp [Store.commit, Store.pop, Store.record]

theorem execContext_spec (s : Store) (tx : Tx) (title : String) :
    (s.execContext tx title).1.rows = s.rows ∧ (s.execContext tx title).1.now = s.now ∧
    (((s.execContext tx title).2.2 = none ∧
        (s.execContext tx title).1.log = s.log ++ [⟨.exec title, none⟩] ∧
        (s.execContext tx title).2.1.pending = tx.pending ++ [newRow (s.seq + 1) title s.now] ∧
        s.seq + 1 ∉ (s.rows ++ tx.pending).map Row.id) ∨
      ∃ d, (s.execContext tx title).2.2 = some d ∧
        (s.execContext tx title).1.log = s.log ++ [⟨.exec title, some d⟩]) := by
  rcases s with ⟨rows, seq, now, faults, log⟩
  rcases faults with _ | ⟨_ | m, fs⟩
  · simp only [Store.execContext, Store.pop, Store.record]
    by_cases hm : seq + 1 ∈ (rows ++ tx.pending).map Row.id
    · rw [if_pos hm]; simp
    · rw [if_neg hm]; exact ⟨rfl, rfl, Or.inl ⟨rfl, rfl, rfl, hm⟩⟩
  · simp only [Store.execContext, Store.pop, Store.record]
    by_cases hm : seq + 1 ∈ (rows ++ tx.pending).map Row.id
    · rw [if_pos hm]; simp
    · rw [if_neg hm]; exact ⟨rfl, rfl, Or.inl ⟨rfl, rfl, rfl, hm⟩⟩
  · simp [Store.execContext, Store.pop, Store.record]

theorem insertLoop_rows (titles : List String) : ∀ (s : Store) (tx : Tx),
    (insertLoop s tx titles).1.rows = s.rows ∧ (insertLoop s tx titles).1.now = s.now := by
  induction titles with
  | nil => intro s tx; exact ⟨rfl, rfl⟩
  | cons t rest ih =>
    intro s tx
    have hs := execContext_spec s tx t
    rcases hE : s.execContext tx t with ⟨s1, tx1, _ | d⟩
    · rw [hE] at hs
      simp only [insertLoop, hE]
      exact ⟨(ih s1 tx1).1.trans hs.1, (ih s1 tx1).2.trans hs.2.1⟩
    · rw [hE] at hs
      simp only [insertLoop, hE]
      exact ⟨hs.1, hs.2.1⟩

theorem insertLoop_ok (titles : List String) : ∀ (s : Store) (tx : Tx),
    (insertLoop s tx titles).2.2 = none →
    (insertLoop s tx titles).1.log = s.log ++ titles.map (fun x => ⟨.exec x, none⟩) ∧
    ∃ news : List Row, (insertLoop s tx titles).2.1.pending = tx.pending ++ news ∧
      news.map Row.title = titles ∧
      (∀ r ∈ news, r.done = some false ∧ r.created_at = some s.now ∧
        r.id ∉ (s.rows ++ tx.pending).map Row.id) ∧
      (news.map Row.id).Nodup := by
  induction titles with
  | nil =>
    intro s tx _
    exact ⟨by simp [insertLoop], [], by simp [insertLoop], rfl, by simp, by simp⟩
  | cons t rest ih =>
    intro s tx h
    have hs := execContext_spec s tx t
    rcases hE : s.execContext tx t with ⟨s1, tx1, _ | d⟩
    · rw [hE] at hs
      simp only [insertLoop, hE] at h ⊢
      obtain ⟨hrows, hnow, hcase⟩ := hs
      rcases hcase with ⟨_, hlog, hpend, hfresh⟩ | ⟨d, hd, _⟩
      · obtain ⟨hl, news, hp, ht, hall, hnd⟩ := ih s1 tx1 h
        simp only at hrows hnow hlog hpend
        refine ⟨?_, newRow (s.seq + 1) t s.now :: news, ?_, ?_, ?_, ?_⟩
        · rw [hl, hlog]; simp
        · rw [hp, hpend]; simp
        · simp [ht, newRow]
        · intro r hr
          rcases List.mem_cons.1 hr with rfl | hr
          · exact ⟨rfl, rfl, hfresh⟩
          · obtain ⟨h1, h2, h3⟩ := hall r hr
            refine ⟨h1, by rw [h2, hnow], ?_⟩
            intro hmem
            apply h3
            rw [hrows, hpend]
            simp only [List.map_append, List.mem_append] at hmem ⊢
            rcases hmem with hmem | hmem
            · exact Or.inl hmem
            · exact Or.inr (Or.inl hmem)
        · rw [List.map_cons, List.nodup_cons]
          refine ⟨?_, hnd⟩
          intro hmem
          obtain ⟨r, hr, hrid⟩ := List.mem_map.1 hmem
          apply (hall r hr).2.2
          rw [hrows, hpend, hrid]
          simp [newRow]
      · simp at hd
    · simp only [insertLoop, hE] at h
      simp at h

theorem insertLoop_fail (titles : List String) : ∀ (s : Store) (tx : Tx) (e : GoError),
    (insertLoop s tx titles).2.2 = some e →
    ∃ (pre : List String) (t : String) (post : List String) (d : GoError),
      titles = pre ++ t :: post ∧
      (insertLoop s tx titles).1.log =
        s.log ++ (pre.map (fun x => ⟨.exec x, none⟩) ++ [⟨.exec t, some d⟩]) ∧
      e = .errorf ("не удалось вставить задачу \x27" ++ t ++ "\x27: " ++ d.Error) := by
  induction titles with
  | nil =>
    intro s tx e h
    simp [insertLoop] at h
  | cons t rest ih =>
    intro s tx e h
    have hs := execContext_spec s tx t
    rcases hE : s.execContext tx t with ⟨s1, tx1, _ | d⟩
    · rw [hE] at hs
      simp only [insertLoop, hE] at h ⊢
      obtain ⟨_, _, hcase⟩ := hs
      rcases hcase with ⟨_, hlog, _, _⟩ | ⟨d, hd, _⟩
      · obtain ⟨pre, u, post, d, ht, hl, he⟩ := ih s1 tx1 e h
        simp only at hlog
        refine ⟨t :: pre, u, post, d, by rw [ht]; rfl, ?_, he⟩
        rw [hl, hlog]; simp
      · simp at hd
    · rw [hE] at hs
      simp only [insertLoop, hE] at h ⊢
      obtain ⟨_, _, hcase⟩ := hs
      rcases hcase with ⟨hn, _⟩ | ⟨d2, hd, hlog⟩
      · simp at hn
      · simp only [Option.some.injEq] at hd h
        subst hd
        exact ⟨[], t, rest, d, rfl, by simpa using hlog, h.symm⟩

theorem CreateMany_cases (s : Store) (titles : List String) :
    (∃ m, (CreateMany s titles).1.log = s.log ++ [⟨.beginTx, some (.driver m)⟩] ∧
      (CreateMany s titles).2 = some (.errorf ("не удалось начать транзакцию: " ++ m)) ∧
      (CreateMany s titles).1.rows = s.rows) ∨
    (∃ m, (CreateMany s titles).1.log =
        s.log ++ [⟨.beginTx, none⟩, ⟨.prepare, some (.driver m)⟩, ⟨.rollback, none⟩] ∧
      (CreateMany s titles).2 = some (.errorf ("не удалось подготовить запрос: " ++ m)) ∧
      (CreateMany s titles).1.rows = s.rows) ∨
    (∃ (pre : List String) (t : String) (post : List String) (d : GoError),
      titles = pre ++ t :: post ∧
      (CreateMany s titles).1.log =
        s.log ++ ([⟨.beginTx, none⟩, ⟨.prepare, none⟩] ++ pre.map (fun x => ⟨.exec x, none⟩) ++
          [⟨.exec t, some d⟩, ⟨.stmtClose, none⟩]) ∧
      (CreateMany s titles).2 =
        some (.errorf ("не удалось вставить задачу \x27" ++ t ++ "\x27: " ++ d.Error)) ∧
      (CreateMany s titles).1.rows = s.rows) ∨
    (∃ m, (CreateMany s titles).1.log =
        s.log ++ ([⟨.beginTx, none⟩, ⟨.prepare, none⟩] ++
          titles.map (fun x => ⟨.exec x, none⟩) ++
          [⟨.commit, some (.driver m)⟩, ⟨.stmtClose, none⟩]) ∧
      (CreateMany s titles).2 =
        some (.errorf ("не удалось подтвердить транзакцию: " ++ m)) ∧
      (CreateMany s titles).1.rows = s.rows) ∨
    ((CreateMany s titles).1.log =
        s.log ++ ([⟨.beginTx, none⟩, ⟨.prepare, none⟩] ++
          titles.map (fun x => ⟨.exec x, none⟩) ++
          [⟨.commit, none⟩, ⟨.stmtClose, none⟩]) ∧
      (CreateMany s titles).2 = none ∧
      ∃ news : List Row, (CreateMany s titles).1.rows = s.rows ++ news ∧
        news.map Row.title = titles ∧
        (∀ r ∈ news, r.done = some false ∧ r.created_at = some s.now ∧ r.id ∉ s.rows.map Row.id) ∧
        (news.map Row.id).Nodup) := by
  have hb := beginTx_spec s
  rcases hB : s.beginTx with ⟨s1, e | tx⟩
  · rw [hB] at hb
    obtain ⟨hr, _, hc⟩ := hb
    rcases hc with ⟨h1, _⟩ | ⟨m, hm, hlog⟩
    · simp at h1
    · simp only [Except.error.injEq] at hm
      subst hm
      left
      exact ⟨m, by simp only [CreateMany, hB]; exact hlog, by simp [CreateMany, hB, GoError.Error],
        by simp only [CreateMany, hB]; exact hr⟩
  · rw [hB] at hb
    obtain ⟨hr1, hn1, hc⟩ := hb
    rcases hc with ⟨htx, hlog1⟩ | ⟨m, hm, _⟩
    swap
    · simp at hm
    simp only [Except.ok.injEq] at htx
    subst htx
    simp only at hr1 hn1 hlog1
    have hp := prepareContext_spec s1
    rcases hP : s1.prepareContext with ⟨s2, _ | e⟩
    swap
    · rw [hP] at hp
      obtain ⟨hr2, _, hc⟩ := hp
      rcases hc with ⟨h1, _⟩ | ⟨m, hm, hlog2⟩
      · simp at h1
      · simp only [Option.some.injEq] at hm
        subst hm
        simp only at hr2 hlog2
        right; left
        refine ⟨m, ?_, ?_, ?_⟩
        · simp [CreateMany, hB, hP, deferredRollback, Store.rollback, Store.record, hlog2, hlog1]
        · simp [CreateMany, hB, hP, GoError.Error]
        · simp [CreateMany, hB, hP, deferredRollback, Store.rollback, Store.record, hr2, hr1]
    rw [hP] at hp
    obtain ⟨hr2, hn2, hc⟩ := hp
    rcases hc with ⟨_, hlog2⟩ | ⟨m, hm, _⟩
    swap
    · simp at hm
    simp only at hr2 hn2 hlog2
    have hlr := insertLoop_rows titles s2 ⟨[]⟩
    rcases hL : insertLoop s2 ⟨[]⟩ titles with ⟨s3, tx3, _ | e⟩
    swap
    · obtain ⟨pre, t, post, d, ht, hl, he⟩ := insertLoop_fail titles s2 ⟨[]⟩ e (by rw [hL])
      rw [hL] at hl hlr
      simp only at hl hlr
      right; right; left
      refine ⟨pre, t, post, d, ht, ?_, ?_, ?_⟩
      · simp [CreateMany, hB, hP, hL, deferredRollback, Store.stmtClose, Store.record, hl, hlog2,
          hlog1]
      · simp [CreateMany, hB, hP, hL, he]
      · simp [CreateMany, hB, hP, hL, deferredRollback, Store.stmtClose, Store.record, hlr.1, hr2,
          hr1]
    obtain ⟨hl, news, hpend, htit, hall, hnd⟩ := insertLoop_ok titles s2 ⟨[]⟩ (by rw [hL])
    rw [hL] at hl hlr hpend
    simp only [List.nil_append] at hl hlr hpend
    have hc := commit_spec s3 tx3
    rcases hC : s3.commit tx3 with ⟨s4, _ | e⟩
    · rw [hC] at hc
      obtain ⟨_, hcase⟩ := hc
      rcases hcase with ⟨_, hr4, hlog4⟩ | ⟨m, hm, _⟩
      swap
      · simp at hm
      simp only at hr4 hlog4
      right; right; right; right
      refine ⟨?_, ?_, news, ?_, htit, ?_, hnd⟩
      · simp [CreateMany, hB, hP, hL, hC, deferredRollback, Store.stmtClose, Store.record, hlog4,
          hl, hlog2, hlog1]
      · simp [CreateMany, hB, hP, hL, hC]
      · simp [CreateMany, hB, hP, hL, hC, deferredRollback, Store.stmtClose, Store.record, hr4,
          hlr.1, hr2, hr1, hpend]
      · intro r hr
        obtain ⟨h1, h2, h3⟩ := hall r hr
        refine ⟨h1, by rw [h2, hn2, hn1], ?_⟩
        rw [hr2, hr1] at h3
        simpa using h3
    · rw [hC] at hc
      obtain ⟨_, hcase⟩ := hc
      rcases hcase with ⟨h1, _⟩ | ⟨m, hm, hr4, hlog4⟩
      · simp at h1
      simp only [Option.some.injEq] at hm
      subst hm
      simp only at hr4 hlog4
      right; right; right; left
      refine ⟨m, ?_, ?_, ?_⟩
      · simp [CreateMany, hB, hP, hL, hC, deferredRollback, Store.stmtClose, Store.record, hlog4,
          hl, hlog2, hlog1]
      · simp [CreateMany, hB, hP, hL, hC, GoError.Error]
      · simp [CreateMany, hB, hP, hL, hC, deferredRollback, Store.stmtClose, Store.record, hr4,
          hlr.1, hr2, hr1]

theorem CreateTask_WF (s : Store) (title : String) (hwf : s.WF) :
    (CreateTask s title).1.WF := by
  rcases s with ⟨rows, seq, now, faults, log⟩
  have key : seq + 1 ∉ rows.map Row.id →
      ((rows ++ [newRow (seq + 1) title now]).map Row.id).Nodup := by
    intro hm
    rw [List.map_append, List.nodup_append]
    refine ⟨hwf, by simp, ?_⟩
    intro a ha hb
    simp only [List.map_cons, List.map_nil, List.mem_singleton, newRow] at hb
    exact hm (hb ▸ ha)
  rcases faults with _ | ⟨_ | m, fs⟩
  · simp only [CreateTask, Store.queryRowInsert, Store.pop, Store.record]
    by_cases hm : seq + 1 ∈ rows.map Row.id
    · rw [if_pos hm]; exact hwf
    · rw [if_neg hm]; exact key hm
  · simp only [CreateTask, Store.queryRowInsert, Store.pop, Store.record]
    by_cases hm : seq + 1 ∈ rows.map Row.id
    · rw [if_pos hm]; exact hwf
    · rw [if_neg hm]; exact key hm
  · exact hwf

theorem CreateMany_WF (s : Store) (titles : List String) (hwf : s.WF) :
    (CreateMany s titles).1.WF := by
  rcases CreateMany_cases s titles with ⟨_, _, _, hr⟩ | ⟨_, _, _, hr⟩ | ⟨_, _, _, _, _, _, _, hr⟩ |
    ⟨_, _, _, hr⟩ | ⟨_, _, news, hr, _, hall, hnd⟩
  · unfold Store.WF; rw [hr]; exact hwf
  · unfold Store.WF; rw [hr]; exact hwf
  · unfold Store.WF; rw [hr]; exact hwf
  · unfold Store.WF; rw [hr]; exact hwf
  · unfold Store.WF
    rw [hr, List.map_append, List.nodup_append]
    refine ⟨hwf, hnd, ?_⟩
    intro a ha hb
    obtain ⟨r, hrm, rfl⟩ := List.mem_map.1 hb
    exact (hall r hrm).2.2 ha

/-- C1: whenever `CreateMany` returns an error, whichever call failed, the committed rows of
the table after the call are the committed rows before it, and so is their number. -/
theorem CreateMany_error_persists_nothing (s : Store) (titles : List String)
    (h : (CreateMany s titles).2 ≠ none) :
    (CreateMany s titles).1.rows = s.rows ∧
    (CreateMany s titles).1.rows.length = s.rows.length := by
  have key : (CreateMany s titles).1.rows = s.rows := by
    rcases CreateMany_cases s titles with ⟨_, _, _, hr⟩ | ⟨_, _, _, hr⟩ |
      ⟨_, _, _, _, _, _, _, hr⟩ | ⟨_, _, _, hr⟩ | ⟨_, hret, _⟩
    · exact hr
    · exact hr
    · exact hr
    · exact hr
    · exact absurd hret h
  exact ⟨key, by rw [key]⟩

theorem CreateMany_error_persists_nothing_witness :
    (CreateMany behindStore ["t1", "t2", "t3"]).2 =
      some (.errorf ("не удалось вставить задачу \x27t2\x27: " ++ pkViolation.Error)) ∧
    (CreateMany behindStore ["t1", "t2", "t3"]).1.rows = behindStore.rows ∧
    (CreateMany behindStore ["t1", "t2", "t3"]).1.rows.length = behindStore.rows.length :=
  ⟨by decide, CreateMany_error_persists_nothing behindStore ["t1", "t2", "t3"] (by decide)⟩

/-- C2 does not hold of the code: when the second insert of a batch fails, `CreateMany`
returns the error without a call of `Rollback` (the journal of the call ends with the
failed `ExecContext` and `stmt.Close()`), because the deferred check reads the `err` of
the function body, which is nil once `PrepareContext` has succeeded; on the sibling
path, a failure of `PrepareContext`, the same deferred check does call `Rollback`. -/
theorem CreateMany_midloop_failure_without_rollback :
    (CreateMany deadlineStore ["a", "b"]).2 =
      some (.errorf "не удалось вставить задачу \x27b\x27: context deadline exceeded") ∧
    Store.since deadlineStore (CreateMany deadlineStore ["a", "b"]).1 =
      [⟨.beginTx, none⟩, ⟨.prepare, none⟩, ⟨.exec "a", none⟩,
        ⟨.exec "b", some (.driver "context deadline exceeded")⟩, ⟨.stmtClose, none⟩] ∧
    (∀ ev ∈ Store.since deadlineStore (CreateMany deadlineStore ["a", "b"]).1,
      ev.call ≠ .rollback) ∧
    Store.since prepareFailStore (CreateMany prepareFailStore ["a", "b"]).1 =
      [⟨.beginTx, none⟩, ⟨.prepare, some (.driver "context deadline exceeded")⟩,
        ⟨.rollback, none⟩] := by
  decide

/-- C3: when no call on the store fails during `CreateMany`, it returns nil and the committed
rows are the rows before followed by one new row for each title, in the order of the
titles, each with `done = false` and an identifier that no earlier row and no other new
row has; a following `ListTasks` that succeeds returns `len(titles)` rows more than the
table held before, all the new rows among them. -/
theorem CreateMany_success_adds_all (s : Store) (titles : List String)
    (hok : ∀ ev ∈ Store.since s (CreateMany s titles).1, ev.err = none) :
    (CreateMany s titles).2 = none ∧
    ∃ news : List Row, (CreateMany s titles).1.rows = s.rows ++ news ∧
      news.map Row.title = titles ∧ news.length = titles.length ∧
      (∀ r ∈ news, r.done = some false ∧ r.id ∉ s.rows.map Row.id) ∧
      (news.map Row.id).Nodup ∧
      ((ListTasks (CreateMany s titles).1).2.2 = none →
        (ListTasks (CreateMany s titles).1).2.1.length = s.rows.length + titles.length ∧
        ∀ r ∈ news, ∃ t ∈ (ListTasks (CreateMany s titles).1).2.1,
          t.toRow = r ∧ t.Done = false) := by
  rcases CreateMany_cases s titles with ⟨m, hl, _, _⟩ | ⟨m, hl, _, _⟩ |
    ⟨pre, t, post, d, _, hl, _, _⟩ | ⟨m, hl, _, _⟩ | ⟨_, hret, news, hr, htit, hall, hnd⟩
  · rw [since_of_log _ _ _ hl] at hok
    exact absurd (hok _ (List.mem_singleton_self _)) (by simp)
  · rw [since_of_log _ _ _ hl] at hok
    exact absurd (hok ⟨.prepare, some (.driver m)⟩ (by simp)) (by simp)
  · rw [since_of_log _ _ _ hl] at hok
    exact absurd (hok ⟨.exec t, some d⟩ (by simp)) (by simp)
  · rw [since_of_log _ _ _ hl] at hok
    exact absurd (hok ⟨.commit, some (.driver m)⟩ (by simp)) (by simp)
  · have hlen : news.length = titles.length := by rw [← htit, List.length_map]
    refine ⟨hret, news, hr, htit, hlen, fun r hrm => ⟨(hall r hrm).1, (hall r hrm).2.2⟩, hnd, ?_⟩
    intro hlist
    have hout := ListTasks_ok _ hlist
    rw [hr] at hout
    refine ⟨?_, ?_⟩
    · have := congrArg List.length hout
      rw [List.length_map, (orderByID_perm _).length_eq, List.length_append, hlen] at this
      exact this
    · intro r hrm
      have hmem : r ∈ (ListTasks (CreateMany s titles).1).2.1.map Task.toRow := by
        rw [hout]
        exact (orderByID_perm _).mem_iff.2 (List.mem_append_right _ hrm)
      obtain ⟨t, ht, htr⟩ := List.mem_map.1 hmem
      refine ⟨t, ht, htr, ?_⟩
      have hd := (hall r hrm).1
      rw [← htr] at hd
      simpa [Task.toRow] using hd

theorem CreateMany_success_adds_all_witness :
    (∀ ev ∈ Store.since sampleStore
        (CreateMany sampleStore ["Массовая задача 1", "Массовая задача 2"]).1, ev.err = none) ∧
    (CreateMany sampleStore ["Массовая задача 1", "Массовая задача 2"]).1.rows =
      sampleStore.rows ++ [⟨4, "Массовая задача 1", some false, some 9⟩,
        ⟨5, "Массовая задача 2", some false, some 9⟩] ∧
    (ListTasks (CreateMany sampleStore ["Массовая задача 1", "Массовая задача 2"]).1).2 =
      ([⟨1, "a", false, 3⟩, ⟨2, "b", true, 5⟩, ⟨3, "c", false, 7⟩,
        ⟨4, "Массовая задача 1", false, 9⟩, ⟨5, "Массовая задача 2", false, 9⟩], none) ∧
    (CreateMany sampleStore ["Массовая задача 1", "Массовая задача 2"]).2 = none :=
  ⟨by decide, by decide, by decide,
    (CreateMany_success_adds_all sampleStore ["Массовая задача 1", "Массовая задача 2"]
      (by decide)).1⟩

/-- C10: when the insert of some title fails, the journal of the call shows `BeginTx`,
`PrepareContext`, one successful `ExecContext` for each title before the failing one, in
input order, the failed `ExecContext`, and `stmt.Close()`: no insert for a later title
and no `Commit`.  The value returned is the error built for the failing title, whose
text holds that title and the text of the store's error; the committed rows are
untouched, nothing of the batch is reported as done. -/
theorem CreateMany_stops_at_first_failure (s : Store) (titles : List String)
    (hfail : ∃ ev ∈ Store.since s (CreateMany s titles).1,
      ev.call.isExec = true ∧ ev.err ≠ none) :
    ∃ (pre : List String) (t : String) (post : List String) (d : GoError),
      titles = pre ++ t :: post ∧
      Store.since s (CreateMany s titles).1 =
        [⟨.beginTx, none⟩, ⟨.prepare, none⟩] ++ pre.map (fun x => ⟨.exec x, none⟩) ++
          [⟨.exec t, some d⟩, ⟨.stmtClose, none⟩] ∧
      (CreateMany s titles).2 =
        some (.errorf ("не удалось вставить задачу \x27" ++ t ++ "\x27: " ++ d.Error)) ∧
      (∀ ev ∈ Store.since s (CreateMany s titles).1, ev.call ≠ .commit) ∧
      (CreateMany s titles).1.rows = s.rows := by
  obtain ⟨ev, hev, hex, herr⟩ := hfail
  rcases CreateMany_cases s titles with ⟨m, hl, _, _⟩ | ⟨m, hl, _, _⟩ |
    ⟨pre, t, post, d, ht, hl, hret, hr⟩ | ⟨m, hl, _, _⟩ | ⟨hl, _, _⟩
  · rw [since_of_log _ _ _ hl] at hev
    simp only [List.mem_singleton] at hev
    subst hev
    simp [Call.isExec] at hex
  · rw [since_of_log _ _ _ hl] at hev
    simp only [List.mem_cons, List.mem_singleton, List.not_mem_nil, or_false] at hev
    rcases hev with rfl | rfl | rfl <;> simp [Call.isExec] at hex
  · refine ⟨pre, t, post, d, ht, since_of_log _ _ _ hl, hret, ?_, hr⟩
    intro ev2 hev2
    rw [since_of_log _ _ _ hl] at hev2
    simp only [List.mem_append, List.mem_cons, List.mem_singleton, List.not_mem_nil, or_false,
      List.mem_map] at hev2
    rcases hev2 with ((rfl | rfl) | ⟨x, _, rfl⟩) | rfl | rfl <;> simp
  · rw [since_of_log _ _ _ hl] at hev
    simp only [List.mem_append, List.mem_cons, List.mem_singleton, List.not_mem_nil, or_false,
      List.mem_map] at hev
    rcases hev with ((rfl | rfl) | ⟨x, _, rfl⟩) | rfl | rfl
    · simp [Call.isExec] at hex
    · simp [Call.isExec] at hex
    · simp at herr
    · simp [Call.isExec] at hex
    · simp [Call.isExec] at hex
  · rw [since_of_log _ _ _ hl] at hev
    simp only [List.mem_append, List.mem_cons, List.mem_singleton, List.not_mem_nil, or_false,
      List.mem_map] at hev
    rcases hev with ((rfl | rfl) | ⟨x, _, rfl⟩) | rfl | rfl
    · simp [Call.isExec] at hex
    · simp [Call.isExec] at hex
    · simp at herr
    · simp [Call.isExec] at hex
    · simp [Call.isExec] at hex

theorem CreateMany_stops_at_first_failure_witness :
    (∃ ev ∈ Store.since behindStore (CreateMany behindStore ["t1", "t2", "t3"]).1,
      ev.call.isExec = true ∧ ev.err ≠ none) ∧
    ∃ (pre : List String) (t : String) (post : List String) (d : GoError),
      ["t1", "t2", "t3"] = pre ++ t :: post ∧
      Store.since behindStore (CreateMany behindStore ["t1", "t2", "t3"]).1 =
        [⟨.beginTx, none⟩, ⟨.prepare, none⟩] ++ pre.map (fun x => ⟨.exec x, none⟩) ++
          [⟨.exec t, some d⟩, ⟨.stmtClose, none⟩] ∧
      (CreateMany behindStore ["t1", "t2", "t3"]).2 =
        some (.errorf ("не удалось вставить задачу \x27" ++ t ++ "\x27: " ++ d.Error)) ∧
      (∀ ev ∈ Store.since behindStore (CreateMany behindStore ["t1", "t2", "t3"]).1,
        ev.call ≠ .commit) ∧
      (CreateMany behindStore ["t1", "t2", "t3"]).1.rows = behindStore.rows :=
  ⟨by decide, CreateMany_stops_at_first_failure behindStore ["t1", "t2", "t3"] (by decide)⟩

end Pz5
